import Mathlib

/-!
# duitmap: projection, tile grid and tile cache

A shallow embedding of `geo.go` and of the tile handling of `main.go`.

* Go `float64` arithmetic is embedded in exact real arithmetic (`ℝ`): rounding is
  not modelled, `math.Log`, `math.Tan`, `math.Atan`, `math.Sinh`, `math.Cos` are the
  real functions and `math.Pow(b, e)` is the real power `b ^ e`.
* Go `int` is embedded in `ℤ`; `/` on `int` is truncated division (`Int.tdiv`). Wrap-around
  is not modelled: pixel sizes, tile coordinates and zoom values stay far inside `int`.
* The goroutines started by `Draw` are embedded as a list of outstanding tasks, the
  unbuffered channel `tileimages` as a rendezvous step of the main loop.
-/

open Real

namespace Duitmap

/-! ## geo.go -/

/-- Constant `radToDeg = 180 / math.Pi` of geo.go. -/
noncomputable def radToDeg : ℝ := 180 / π

/-- Constant `degToRad = math.Pi / 180` of geo.go. -/
noncomputable def degToRad : ℝ := π / 180

/-- Type `webmerc` of geo.go: a web mercator (epsg3857) coordinate. -/
structure webmerc where
  E : ℝ
  N : ℝ

/-- Type `wgs84` of geo.go: longitude and latitude in degrees. -/
structure wgs84 where
  xlon : ℝ
  ylat : ℝ

/-- Type `tile` of geo.go: a slippy map tile address. -/
structure tile where
  x : ℤ
  y : ℤ
  z : ℤ
deriving DecidableEq, Repr

/-- Go conversion `int(f)` of a float: the fraction is discarded (truncation towards zero). -/
noncomputable def goInt (f : ℝ) : ℤ := if 0 ≤ f then ⌊f⌋ else ⌈f⌉

/-- Method `wgs84.Webmerc` of geo.go. -/
noncomputable def wgs84.Webmerc (loc : wgs84) : webmerc :=
  let a : ℝ := 6378137.0
  let lam := loc.xlon * degToRad
  let phi := loc.ylat * degToRad
  { E := a * lam
    N := a * Real.log (Real.tan (π / 4 + phi / 2)) }

/-- Method `tile.Wgs84` of geo.go: the top left corner of the tile. -/
noncomputable def tile.Wgs84 (t : tile) : wgs84 :=
  let n : ℝ := (2 : ℝ) ^ ((t.z : ℤ) : ℝ)
  { xlon := (t.x : ℝ) / n * 360.0 - 180.0
    ylat := radToDeg * Real.arctan (Real.sinh (π * (1 - 2 * (t.y : ℝ) / n))) }

/-- Method `tile.Webmerc` of geo.go. -/
noncomputable def tile.Webmerc (t : tile) : webmerc := t.Wgs84.Webmerc

/-- Method `tile.Next` of geo.go. -/
def tile.Next (t : tile) : tile := { x := t.x + 1, y := t.y + 1, z := t.z }

/-- Method `tile.WebmercSize` of geo.go. -/
noncomputable def tile.WebmercSize (t : tile) : webmerc :=
  let s := t.Webmerc
  let e := t.Next.Webmerc
  { E := e.E - s.E, N := e.N - s.N }

/-- Method `webmerc.Add` of geo.go. -/
noncomputable def webmerc.Add (wm o : webmerc) : webmerc :=
  { E := wm.E + o.E, N := wm.N + o.N }

/-- Method `webmerc.Wgs84` of geo.go. -/
noncomputable def webmerc.Wgs84 (wm : webmerc) : wgs84 :=
  let xlon := wm.E / (6378137.0 * degToRad)
  let ylat := wm.N / 6378137.0
  let ylat := (Real.exp 1) ^ ylat
  let ylat := Real.arctan ylat
  let ylat := ylat - π * 0.25
  let ylat := ylat / (0.5 * degToRad)
  { xlon := xlon, ylat := ylat }

/-- Method `wgs84.Tile` of geo.go. -/
noncomputable def wgs84.Tile (loc : wgs84) (zoom : ℤ) : tile :=
  let latRad := loc.ylat * degToRad
  let n : ℝ := (2.0 : ℝ) ^ (zoom : ℝ)
  { x := goInt ((loc.xlon + 180.0) / 360.0 * n)
    y := ⌊(1.0 - Real.log (Real.tan latRad + 1.0 / Real.cos latRad) / π) / 2.0 * n⌋
    z := zoom }

/-- Method `webmerc.Tile` of geo.go. -/
noncomputable def webmerc.Tile (wm : webmerc) (zoom : ℤ) : tile := wm.Wgs84.Tile zoom

/-! ## Go package image (the parts main.go uses) -/

/-- Type `image.Point`. -/
structure Point where
  X : ℤ
  Y : ℤ
deriving DecidableEq, Repr

/-- Type `image.Rectangle`: the points with Min.X <= X < Max.X and Min.Y <= Y < Max.Y. -/
structure Rectangle where
  Min : Point
  Max : Point
deriving DecidableEq, Repr

/-- Function `image.Pt`. -/
def Pt (x y : ℤ) : Point := { X := x, Y := y }

/-- Variable `image.ZP`, the zero point. -/
def ZP : Point := { X := 0, Y := 0 }

/-- Variable `image.ZR`, the zero rectangle. -/
def ZR : Rectangle := { Min := ZP, Max := ZP }

/-- Method `Point.Add`. -/
def Point.Add (p q : Point) : Point := { X := p.X + q.X, Y := p.Y + q.Y }

/-- Method `Point.Sub`. -/
def Point.Sub (p q : Point) : Point := { X := p.X - q.X, Y := p.Y - q.Y }

/-- Method `Point.Div`: both coordinates divided by k with Go integer division. -/
def Point.Div (p : Point) (k : ℤ) : Point := { X := p.X.tdiv k, Y := p.Y.tdiv k }

/-- Method `Rectangle.Dx`. -/
def Rectangle.Dx (r : Rectangle) : ℤ := r.Max.X - r.Min.X

/-- Method `Rectangle.Dy`. -/
def Rectangle.Dy (r : Rectangle) : ℤ := r.Max.Y - r.Min.Y

/-- Method `Rectangle.Size`. -/
def Rectangle.Size (r : Rectangle) : Point := { X := r.Max.X - r.Min.X, Y := r.Max.Y - r.Min.Y }

/-- Method `Rectangle.Add`: the rectangle translated by p. -/
def Rectangle.Add (r : Rectangle) (p : Point) : Rectangle :=
  { Min := r.Min.Add p, Max := r.Max.Add p }

/-- Method `Rectangle.Empty`. -/
def Rectangle.Empty (r : Rectangle) : Bool :=
  decide (r.Min.X ≥ r.Max.X) || decide (r.Min.Y ≥ r.Max.Y)

/-- Method `Rectangle.Intersect`: the largest rectangle contained in both, the zero
rectangle when they do not overlap. -/
def Rectangle.Intersect (r s : Rectangle) : Rectangle :=
  let r : Rectangle := if r.Min.X < s.Min.X then { r with Min := { r.Min with X := s.Min.X } } else r
  let r : Rectangle := if r.Min.Y < s.Min.Y then { r with Min := { r.Min with Y := s.Min.Y } } else r
  let r : Rectangle := if r.Max.X > s.Max.X then { r with Max := { r.Max with X := s.Max.X } } else r
  let r : Rectangle := if r.Max.Y > s.Max.Y then { r with Max := { r.Max with Y := s.Max.Y } } else r
  if r.Empty then ZR else r

/-- Method `Point.In`: whether the point lies in the rectangle. -/
def Point.In (p : Point) (r : Rectangle) : Prop :=
  r.Min.X ≤ p.X ∧ p.X < r.Max.X ∧ r.Min.Y ≤ p.Y ∧ p.Y < r.Max.Y

instance (p : Point) (r : Rectangle) : Decidable (p.In r) := by
  unfold Point.In; infer_instance

/-! ## main.go -/

/-- Type `tileLink` of main.go: the key of the tile maps. -/
structure tileLink where
  tile : tile
  tileURL : String
deriving DecidableEq, Repr

/-- Handle of a decoded image (`*draw.Image`). -/
abbrev Image := ℕ

/-- Contents of a tile file (`[]byte`). -/
abbrev Bytes := List UInt8

/-- Type `tileImage` of main.go: what a goroutine sends on the channel tileimages. -/
structure tileImage where
  tileLink : tileLink
  image : Image
  buf : Bytes

/-- Type `tileMap` of main.go. A Go map is a function to Option (to Bool for the set
tileBusy); the nil maps Draw replaces by empty maps on its first call read as empty maps
already. The fields lastDraw, prevM and prevB1 (repainting and mouse state) are left out. -/
structure tileMap where
  ZoomMin : ℤ
  ZoomMax : ℤ
  Zoom : ℤ
  TileURL : String
  TileURL2x : String
  Center : webmerc
  tileImages : tileLink → Option Image
  tileFiles : tileLink → Option Bytes
  tileBusy : tileLink → Bool

/-- Method `tileMap.zoom` of main.go: Zoom clamped to ZoomMin and then to ZoomMax. -/
def tileMap.zoom (ui : tileMap) : ℤ :=
  let z := ui.Zoom
  let z := if z < ui.ZoomMin then ui.ZoomMin else z
  let z := if z > ui.ZoomMax then ui.ZoomMax else z
  z

/-- Function `rect` of main.go. -/
def rect (size : Point) : Rectangle := { Min := ZP, Max := size }

/-- Method `tileMap.tileConfig` of main.go. -/
def tileMap.tileConfig (ui : tileMap) (hiDPI : Bool) : String × Point :=
  if hiDPI then (ui.TileURL2x, Pt 512 512) else (ui.TileURL, Pt 256 256)

/-- The part of `*duit.DUI` the handlers use: the scaling of a length to the display. -/
structure DUI where
  Scale : ℤ → ℤ

/-- Expression `hiDPI := dui.Scale(100) > 100` of Draw, Mouse and Key. -/
def DUI.hiDPI (dui : DUI) : Bool := decide (dui.Scale 100 > 100)

/-- First part of `tileMap.Draw` (lines 102-108): the tile tc that contains the centre
and the pixel offset of that tile's top left corner from the centre. -/
noncomputable def Draw.center (ui : tileMap) (tileSize : Point) : tile × Point :=
  let zoom := ui.zoom
  let tc := ui.Center.Tile zoom
  let tcWM := tc.Webmerc
  let wmSize := tc.WebmercSize
  let dE := tcWM.E - ui.Center.E
  let dN := tcWM.N - ui.Center.N
  let offset := Pt (goInt ((tileSize.X : ℝ) * dE / wmSize.E))
    (goInt ((tileSize.Y : ℝ) * dN / wmSize.N))
  (tc, offset)

/-- The values `t0`, `p0`, `ntx`, `nty` of `tileMap.Draw`. -/
structure Grid where
  t0 : tile
  p0 : Point
  ntx : ℤ
  nty : ℤ
deriving DecidableEq, Repr

/-- Second part of `tileMap.Draw` (lines 109-116): the top left tile t0, its pixel
position p0 and the number of tile columns and rows, from the rectangle R of the
widget, the tile size, the zoom, the centre tile and its offset. -/
def Draw.grid (R : Rectangle) (tileSize : Point) (zoom : ℤ) (tc : tile) (offset : Point) :
    Grid :=
  let t0 : tile :=
    { x := tc.x - (R.Dx.tdiv 2 + offset.X + tileSize.X - 1).tdiv tileSize.X
      y := tc.y - (R.Dy.tdiv 2 + offset.Y + tileSize.Y - 1).tdiv tileSize.Y
      z := zoom }
  let p0 := (offset.Add (Pt ((t0.x - tc.x) * tileSize.X) ((t0.y - tc.y) * tileSize.Y))).Add
    (R.Size.Div 2)
  let ntx := (-offset.X + R.Dx + tileSize.X - 1).tdiv tileSize.X
  let nty := (-offset.Y + R.Dy + tileSize.Y - 1).tdiv tileSize.Y
  { t0 := t0, p0 := p0, ntx := ntx, nty := nty }

/-- The pairs tx, ty the two loops of `tileMap.Draw` run through, in order. -/
def Draw.cells (g : Grid) : List (ℤ × ℤ) :=
  (List.range g.ntx.toNat).flatMap fun (tx : ℕ) =>
    (List.range g.nty.toNat).map fun (ty : ℕ) => (Int.ofNat tx, Int.ofNat ty)

/-- The tile of the cell tx, ty (line 120). -/
def Draw.cellTile (g : Grid) (zoom : ℤ) (c : ℤ × ℤ) : tile :=
  { x := g.t0.x + c.1, y := g.t0.y + c.2, z := zoom }

/-- The tiles `tileMap.Draw` asks for, in order. -/
def Draw.tiles (g : Grid) (zoom : ℤ) : List tile :=
  (Draw.cells g).map (Draw.cellTile g zoom)

/-- Lines 102-116 of `tileMap.Draw` together: the grid for the view of ui, a tile size
and the rectangle R of the widget. -/
noncomputable def Draw.plan (ui : tileMap) (tileSize : Point) (R : Rectangle) : Grid :=
  Draw.grid R tileSize ui.zoom (Draw.center ui tileSize).1 (Draw.center ui tileSize).2

/-- The tiles `tileMap.Draw` asks for, for the view of ui. -/
noncomputable def Draw.requested (ui : tileMap) (tileSize : Point) (R : Rectangle) :
    List tile :=
  Draw.tiles (Draw.plan ui tileSize R) ui.zoom

/-- The tile link of a tile (lines 121-125): the placeholders of the url replaced by
the decimal tile coordinates. -/
def Draw.link (tileURL : String) (t : tile) : tileLink :=
  let url := tileURL
  let url := url.replace "{x}" (toString t.x)
  let url := url.replace "{y}" (toString t.y)
  let url := url.replace "{z}" (toString t.z)
  { tile := t, tileURL := url }

/-- Destination rectangle and source point with which `tileMap.Draw` draws the image of
the cell tx, ty (lines 129-137). -/
def Draw.dest (R : Rectangle) (orig tileSize p0 : Point) (c : ℤ × ℤ) : Rectangle × Point :=
  let p := p0.Add (Pt (c.1 * tileSize.X) (c.2 * tileSize.Y))
  let sp := ZP
  let (p, sp) : Point × Point :=
    if p.X < 0 then ({ p with X := 0 }, { sp with X := -p.X }) else (p, sp)
  let (p, sp) : Point × Point :=
    if p.Y < 0 then ({ p with Y := 0 }, { sp with Y := -p.Y }) else (p, sp)
  let r := (((rect tileSize).Add p).Add orig).Intersect (R.Add orig)
  (r, sp)

/-- A goroutine started by `tileMap.Draw` that has not ended: its tile link, and the
cached file for the goroutine that only decodes (lines 146-153), none for the goroutine
that fetches the url (lines 157-180). -/
structure Task where
  tl : tileLink
  tbuf : Option Bytes

/-- State of the program as far as tiles go: the tile map and the goroutines started
by Draw that have not ended. -/
structure World where
  ui : tileMap
  tasks : List Task

/-- Loop body of `tileMap.Draw` for one tile link (lines 128-180), without the
painting: a cached image is drawn; a busy link is skipped; otherwise the link is marked
busy and a goroutine is started, decoding the cached file when there is one and fetching
the url when there is none. -/
def Draw.body (w : World) (tl : tileLink) : World :=
  match w.ui.tileImages tl with
  | some _ => w
  | none =>
    if w.ui.tileBusy tl then w
    else
      match w.ui.tileFiles tl with
      | some tbuf =>
        { ui := { w.ui with tileBusy := fun k => if k = tl then true else w.ui.tileBusy k }
          tasks := w.tasks ++ [{ tl := tl, tbuf := some tbuf }] }
      | none =>
        { ui := { w.ui with tileBusy := fun k => if k = tl then true else w.ui.tileBusy k }
          tasks := w.tasks ++ [{ tl := tl, tbuf := none }] }

/-- The loops of `tileMap.Draw` (lines 118-182) for a centre tile and offset. -/
def Draw.pass (w : World) (hiDPI : Bool) (R : Rectangle) (tc : tile) (offset : Point) :
    World :=
  let (tileURL, tileSize) := w.ui.tileConfig hiDPI
  let zoom := w.ui.zoom
  let g := Draw.grid R tileSize zoom tc offset
  (Draw.tiles g zoom).foldl (fun w t => Draw.body w (Draw.link tileURL t)) w

/-- Method `tileMap.Draw` of main.go, as far as the tile maps and goroutines go. -/
noncomputable def tileMap.Draw (w : World) (dui : DUI) (R : Rectangle) : World :=
  let c := Duitmap.Draw.center w.ui (w.ui.tileConfig dui.hiDPI).2
  Duitmap.Draw.pass w dui.hiDPI R c.1 c.2

/-- Case `ti := <-tileimages` of the loop of main (lines 468-473). -/
def tileMap.receive (ui : tileMap) (ti : tileImage) : tileMap :=
  { ui with
    tileBusy := fun k => if k = ti.tileLink then false else ui.tileBusy k
    tileFiles := fun k => if k = ti.tileLink then some ti.buf else ui.tileFiles k
    tileImages := fun k => if k = ti.tileLink then some ti.image else ui.tileImages k }

/-- Keys `tileMap.Key` tells apart. -/
inductive Rune where
  | plus
  | minus
  | KeyLeft
  | KeyRight
  | KeyUp
  | KeyDown
  | other
deriving DecidableEq, Repr

/-- Closure `move` of `tileMap.Key` (lines 226-234). -/
noncomputable def tileMap.move (ui : tileMap) (dui : DUI) (dx dy : ℤ) : tileMap :=
  let t0 := ui.Center.Tile ui.zoom
  let deltaWebmerc := t0.WebmercSize
  let tileSize := (ui.tileConfig dui.hiDPI).2
  let deltaWebmerc : webmerc :=
    { E := deltaWebmerc.E * ((dx : ℝ) / (tileSize.X : ℝ))
      N := deltaWebmerc.N * ((dy : ℝ) / (tileSize.Y : ℝ)) }
  { ui with Center := ui.Center.Add deltaWebmerc }

/-- Method `tileMap.Key` of main.go, as far as the tile map goes. -/
noncomputable def tileMap.Key (ui : tileMap) (dui : DUI) (k : Rune) : tileMap :=
  match k with
  | Rune.other => ui
  | Rune.plus =>
    let ui := { ui with Zoom := ui.Zoom + 1 }
    { ui with Zoom := ui.zoom }
  | Rune.minus =>
    let ui := { ui with Zoom := ui.Zoom - 1 }
    { ui with Zoom := ui.zoom }
  | Rune.KeyLeft => ui.move dui (dui.Scale (-50)) 0
  | Rune.KeyRight => ui.move dui (dui.Scale 50) 0
  | Rune.KeyUp => ui.move dui 0 (dui.Scale (-50))
  | Rune.KeyDown => ui.move dui 0 (dui.Scale 50)

/-- Click handler of the button zoomOut of main (lines 336-341). -/
def zoomOut.Click (tilemap : tileMap) : tileMap := { tilemap with Zoom := tilemap.Zoom - 1 }

/-- Click handler of the button zoomIn of main (lines 345-350). -/
def zoomIn.Click (tilemap : tileMap) : tileMap := { tilemap with Zoom := tilemap.Zoom + 1 }

/-- The tile map main starts with (lines 304-315 and 332), its maps empty. -/
noncomputable def main.tilemap : tileMap :=
  { ZoomMin := 1
    ZoomMax := 17
    Zoom := 8
    TileURL := "https://tilecache.irias.nl/tiles/osm-bright/{z}/{x}/{y}.png"
    TileURL2x := "https://tilecache.irias.nl/tiles/osm-bright@2x/{z}/{x}/{y}.png"
    Center := (wgs84.mk 5.5 52.2).Webmerc
    tileImages := fun _ => none
    tileFiles := fun _ => none
    tileBusy := fun _ => false }

/-- The view with the centre at longitude 0, latitude 0 and Zoom 1: what the search
field gives for the text 0,0 and seven presses of the key '-' after the start. -/
noncomputable def main.tilemapOrigin : tileMap :=
  { main.tilemap with Zoom := 1, Center := (wgs84.mk 0 0).Webmerc }

/-- What can happen to the tile state: a Draw of the widget with rectangle R; an input
handler (Key, Mouse, the buttons, the search field, the tile set selection) that leaves
the view fields as in v and does not touch the tile maps; the goroutine at position i
of the outstanding ones sends its result, image and (when it fetched) body, and the loop
of main receives it; the goroutine at position i returns on an error without sending. -/
inductive Event where
  | draw (dui : DUI) (R : Rectangle)
  | input (v : tileMap)
  | recv (i : ℕ) (image : Image) (body : Bytes)
  | fail (i : ℕ)

/-- One step of the tile state. -/
noncomputable def World.step (w : World) : Event → World
  | Event.draw dui R => tileMap.Draw w dui R
  | Event.input v =>
    { w with ui := { v with tileImages := w.ui.tileImages, tileFiles := w.ui.tileFiles,
                            tileBusy := w.ui.tileBusy } }
  | Event.recv i image body =>
    match w.tasks.get? i with
    | none => w
    | some t =>
      { ui := w.ui.receive { tileLink := t.tl, image := image, buf := t.tbuf.getD body }
        tasks := w.tasks.eraseIdx i }
  | Event.fail i => { w with tasks := w.tasks.eraseIdx i }

/-- The tile state after a sequence of events. -/
noncomputable def World.run (w : World) (evs : List Event) : World := evs.foldl World.step w

/-- The state in which the loop of main starts: the tile map of main, no goroutine. -/
noncomputable def World.init : World := { ui := main.tilemap, tasks := [] }

/-- The invariant of the tile state: the outstanding goroutines have different tile
links, the link of each is marked busy, and a link marked busy has no decoded image. -/
def World.Inv (w : World) : Prop :=
  (w.tasks.map Task.tl).Nodup ∧ (∀ t ∈ w.tasks, w.ui.tileBusy t.tl = true) ∧
    ∀ l, w.ui.tileBusy l = true → w.ui.tileImages l = none

/-- The state of a tile link whose goroutine has failed: marked busy, no decoded image,
no outstanding goroutine. -/
def World.Stuck (w : World) (l : tileLink) : Prop :=
  w.ui.tileBusy l = true ∧ w.ui.tileImages l = none ∧ ∀ t ∈ w.tasks, t.tl ≠ l

/-- The data model invariant of a tile address: zoom not negative and
0 <= x, y < 2^zoom. -/
def tile.valid (t : tile) : Prop :=
  0 ≤ t.z ∧ 0 ≤ t.x ∧ t.x < 2 ^ t.z.toNat ∧ 0 ≤ t.y ∧ t.y < 2 ^ t.z.toNat

instance (t : tile) : Decidable t.valid := by
  unfold tile.valid; infer_instance

/-! ## Projection lemmas -/

theorem degToRad_pos : 0 < degToRad := by
  unfold degToRad; positivity

theorem radToDeg_mul_degToRad : radToDeg * degToRad = 1 := by
  unfold radToDeg degToRad
  field_simp

/-- A latitude below 90 degrees in absolute value is an angle inside (-π/2, π/2). -/
theorem latRad_bounds {ylat : ℝ} (h : |ylat| < 90) :
    -(π / 2) < ylat * degToRad ∧ ylat * degToRad < π / 2 := by
  have hp := Real.pi_pos
  rw [abs_lt] at h
  unfold degToRad
  constructor <;> nlinarith

/-- Projecting a coordinate with |latitude| < 90 and going back returns it. -/
theorem Webmerc_Wgs84_eq (g : wgs84) (h : |g.ylat| < 90) : g.Webmerc.Wgs84 = g := by
  have hp := Real.pi_pos
  have hd := degToRad_pos
  obtain ⟨h1, h2⟩ := latRad_bounds h
  have htan : 0 < Real.tan (π / 4 + g.ylat * degToRad / 2) :=
    Real.tan_pos_of_pos_of_lt_pi_div_two (by linarith) (by linarith)
  obtain ⟨xlon, ylat⟩ := g
  simp only [wgs84.Webmerc, webmerc.Wgs84] at *
  congr 1
  · field_simp
    ring
  · rw [mul_div_cancel_left₀ _ (by norm_num : (6378137.0 : ℝ) ≠ 0),
      Real.exp_one_rpow, Real.exp_log htan,
      Real.arctan_tan (by linarith) (by linarith)]
    field_simp
    ring

/-- C1: for every geographic coordinate with |latitude| < 85.05 degrees and any
longitude, projecting with wgs84.Webmerc and going back with webmerc.Wgs84 returns the
original longitude and latitude, exactly, in real arithmetic. -/
theorem Webmerc_Wgs84_roundtrip (g : wgs84) (h : |g.ylat| < 85.05) :
    g.Webmerc.Wgs84 = g :=
  Webmerc_Wgs84_eq g (lt_trans h (by norm_num))

/-- Witness for C1 at longitude 5.5, latitude 52.2 (the start position of main). -/
theorem Webmerc_Wgs84_roundtrip_witness :
    |(52.2 : ℝ)| < 85.05 ∧
      (wgs84.mk 5.5 52.2).Webmerc.Wgs84 = wgs84.mk 5.5 52.2 :=
  ⟨by rw [abs_of_pos] <;> norm_num,
    Webmerc_Wgs84_roundtrip (wgs84.mk 5.5 52.2) (by
      show |(52.2 : ℝ)| < 85.05
      rw [abs_of_pos] <;> norm_num)⟩

/-- For an angle inside (-π/2, π/2), tan + 1/cos is positive and its logarithm is the
inverse hyperbolic sine of the tangent. -/
theorem log_tan_add_sec {phi : ℝ} (h1 : -(π / 2) < phi) (h2 : phi < π / 2) :
    Real.log (Real.tan phi + 1.0 / Real.cos phi) = Real.arsinh (Real.tan phi) := by
  have hc : 0 < Real.cos phi := Real.cos_pos_of_mem_Ioo ⟨h1, h2⟩
  have hsq : 1 + Real.tan phi ^ 2 = (1 / Real.cos phi) ^ 2 := by
    rw [Real.tan_eq_sin_div_cos]
    field_simp
  have hs : √(1 + Real.tan phi ^ 2) = 1 / Real.cos phi := by
    rw [hsq, Real.sqrt_sq (by positivity)]
  unfold Real.arsinh
  rw [hs]
  norm_num

/-- The latitude of a location is recovered from the inverse hyperbolic sine of the
tangent of its angle. -/
theorem ylat_eq_arctan_sinh {ylat : ℝ} (h : |ylat| < 90) :
    ylat = radToDeg * Real.arctan (Real.sinh (Real.arsinh (Real.tan (ylat * degToRad)))) := by
  obtain ⟨h1, h2⟩ := latRad_bounds h
  rw [Real.sinh_arsinh, Real.arctan_tan h1 h2, mul_comm ylat, ← mul_assoc,
    radToDeg_mul_degToRad, one_mul]

theorem radToDeg_pos : 0 < radToDeg := by
  unfold radToDeg; positivity

/-- The tile latitude function is strictly increasing in its argument. -/
theorem radToDeg_arctan_sinh_lt {a b : ℝ} (h : a < b) :
    radToDeg * Real.arctan (Real.sinh a) < radToDeg * Real.arctan (Real.sinh b) :=
  mul_lt_mul_of_pos_left (Real.arctan_strictMono (Real.sinh_strictMono h)) radToDeg_pos

theorem radToDeg_arctan_sinh_le {a b : ℝ} (h : a ≤ b) :
    radToDeg * Real.arctan (Real.sinh a) ≤ radToDeg * Real.arctan (Real.sinh b) :=
  mul_le_mul_of_nonneg_left
    (Real.arctan_strictMono.monotone (Real.sinh_strictMono.monotone h)) radToDeg_pos.le

/-- Half angle identity behind the two forms of the mercator latitude function:
tan(π/4 + h) = tan(2h) + 1/cos(2h) for |h| < π/4. -/
theorem tan_pi_div_four_add {h : ℝ} (h1 : -(π / 4) < h) (h2 : h < π / 4) :
    Real.tan (π / 4 + h) = Real.tan (2 * h) + 1 / Real.cos (2 * h) := by
  have hp := Real.pi_pos
  have hc1 : 0 < Real.cos (π / 4 + h) :=
    Real.cos_pos_of_mem_Ioo ⟨by linarith, by linarith⟩
  have hc2 : 0 < Real.cos (2 * h) :=
    Real.cos_pos_of_mem_Ioo ⟨by linarith, by linarith⟩
  have hs2 : (0 : ℝ) < √2 := Real.sqrt_pos.mpr (by norm_num)
  rw [Real.tan_eq_sin_div_cos, Real.tan_eq_sin_div_cos, div_add_div_same,
    div_eq_div_iff hc1.ne.symm hc2.ne.symm]
  rw [Real.cos_add, Real.cos_pi_div_four, Real.sin_pi_div_four] at hc1 ⊢
  rw [Real.sin_add, Real.cos_pi_div_four, Real.sin_pi_div_four, Real.sin_two_mul,
    Real.cos_two_mul]
  linear_combination (√2 * Real.cos h) * (Real.sin_sq_add_cos_sq h)

/-- The mercator northing of a latitude given as arctan(sinh u) is a·u: the
logarithm in wgs84.Webmerc undoes the arctan(sinh ·) of tile.Wgs84. -/
theorem log_tan_arctan_sinh (u : ℝ) :
    Real.log (Real.tan (π / 4 + Real.arctan (Real.sinh u) / 2)) = u := by
  have hp := Real.pi_pos
  have h1 := Real.neg_pi_div_two_lt_arctan (Real.sinh u)
  have h2 := Real.arctan_lt_pi_div_two (Real.sinh u)
  rw [tan_pi_div_four_add (by linarith) (by linarith),
    mul_div_cancel₀ _ (by norm_num : (2 : ℝ) ≠ 0), Real.tan_arctan, Real.cos_arctan,
    one_div_one_div]
  have := Real.arsinh_sinh u
  unfold Real.arsinh at this
  exact this

/-- Closed form of tile.Webmerc in real arithmetic. -/
theorem tile_Webmerc_eq (t : tile) :
    t.Webmerc = { E := 6378137.0 * (((t.x : ℝ) / (2 : ℝ) ^ (t.z : ℝ) * 360.0 - 180.0) * degToRad)
                  N := 6378137.0 * (π * (1 - 2 * (t.y : ℝ) / (2 : ℝ) ^ (t.z : ℝ))) } := by
  simp only [tile.Webmerc, tile.Wgs84, wgs84.Webmerc]
  congr 1
  rw [mul_comm radToDeg, mul_assoc, radToDeg_mul_degToRad, mul_one, log_tan_arctan_sinh]

/-- Closed form of tile.WebmercSize in real arithmetic: all tiles of a zoom level have
the same projected width and height. -/
theorem tile_WebmercSize_eq (t : tile) :
    t.WebmercSize = { E := 2 * π * 6378137.0 / (2 : ℝ) ^ (t.z : ℝ)
                      N := -(2 * π * 6378137.0 / (2 : ℝ) ^ (t.z : ℝ)) } := by
  have hn : (0 : ℝ) < (2 : ℝ) ^ (t.z : ℝ) := Real.rpow_pos_of_pos (by norm_num) _
  simp only [tile.WebmercSize, tile_Webmerc_eq, tile.Next]
  congr 1
  · unfold degToRad
    push_cast
    field_simp
    ring
  · push_cast
    field_simp
    ring

theorem add_cube_div_three_le_tan {x : ℝ} (h0 : 0 ≤ x) (h1 : x < π / 2) :
    x + x ^ 3 / 3 ≤ Real.tan x := by
  have hp := Real.pi_pos
  have hcos : ∀ y ∈ Set.Ico (0 : ℝ) (π / 2), 0 < Real.cos y := fun y hy =>
    Real.cos_pos_of_mem_Ioo ⟨by linarith [hy.1], hy.2⟩
  have hcont : ContinuousOn (fun y : ℝ => Real.tan y - y - y ^ 3 / 3) (Set.Ico 0 (π / 2)) := by
    have ht : ContinuousOn Real.tan (Set.Ico 0 (π / 2)) :=
      Real.continuousOn_tan_Ioo.mono fun y hy => ⟨by linarith [hy.1], hy.2⟩
    exact (ht.sub continuousOn_id).sub ((continuousOn_id.pow 3).div_const 3)
  have hderiv : ∀ y ∈ Set.Ioo (0 : ℝ) (π / 2),
      HasDerivAt (fun y : ℝ => Real.tan y - y - y ^ 3 / 3)
        (1 / Real.cos y ^ 2 - 1 - 3 * y ^ 2 / 3) y := by
    intro y hy
    have hc := (hcos y ⟨hy.1.le, hy.2⟩).ne.symm
    have h3 : HasDerivAt (fun y : ℝ => y ^ 3 / 3) (3 * y ^ 2 / 3) y := by
      simpa using (hasDerivAt_pow 3 y).div_const 3
    exact ((Real.hasDerivAt_tan hc).sub (hasDerivAt_id y)).sub h3
  have hmono : MonotoneOn (fun y : ℝ => Real.tan y - y - y ^ 3 / 3) (Set.Ico 0 (π / 2)) := by
    apply monotoneOn_of_deriv_nonneg (convex_Ico 0 (π / 2)) hcont
    · rw [interior_Ico]
      exact fun y hy => (hderiv y hy).differentiableAt.differentiableWithinAt
    · rw [interior_Ico]
      intro y hy
      rw [(hderiv y hy).deriv]
      have hc := hcos y ⟨hy.1.le, hy.2⟩
      have hty : y ≤ Real.tan y := Real.le_tan hy.1.le hy.2
      have hsq : 1 / Real.cos y ^ 2 = 1 + Real.tan y ^ 2 := by
        rw [Real.tan_eq_sin_div_cos]
        field_simp
      rw [hsq]
      nlinarith [hy.1]
  have := hmono ⟨le_refl 0, by linarith⟩ ⟨h0, h1⟩ h0
  simp only [Real.tan_zero] at this
  norm_num at this
  linarith

theorem exp_pi_gt : (23.1406 : ℝ) < Real.exp π := by
  have h1 : (23.1406 : ℝ) < ∑ i ∈ Finset.range 16, (3.141592 : ℝ) ^ i / (Nat.factorial i) := by
    simp only [Finset.sum_range_succ, Finset.sum_range_zero, Nat.factorial]
    norm_num
  have h2 := Real.sum_le_exp_of_nonneg (by norm_num : (0 : ℝ) ≤ 3.141592) 16
  have h3 : Real.exp 3.141592 < Real.exp π := Real.exp_lt_exp.mpr Real.pi_gt_d6
  linarith

/-- Inside the mercator band |ylat| < 85.0511 the logarithm computed by wgs84.Tile lies
strictly between -π and π. -/
theorem log_tan_add_sec_band {ylat : ℝ} (h : |ylat| < 85.0511) :
    -π < Real.log (Real.tan (ylat * degToRad) + 1.0 / Real.cos (ylat * degToRad)) ∧
      Real.log (Real.tan (ylat * degToRad) + 1.0 / Real.cos (ylat * degToRad)) < π := by
  have hp := Real.pi_pos
  have hp6 := Real.pi_gt_d6
  have hp4 := Real.pi_lt_d6
  rw [abs_lt] at h
  have hphi1 : -(85.0511 * π / 180) < ylat * degToRad := by unfold degToRad; nlinarith
  have hphi2 : ylat * degToRad < 85.0511 * π / 180 := by unfold degToRad; nlinarith
  set phi := ylat * degToRad
  set d : ℝ := π * 2.47445 / 180 with hd
  have hd0 : 0 < d := by positivity
  have hdlo : (3.141592 : ℝ) * 2.47445 / 180 ≤ d := by rw [hd]; nlinarith
  have hdhi : d < π / 2 := by rw [hd]; nlinarith
  have hpsi1 : d < π / 4 + phi / 2 := by rw [hd]; linarith
  have hpsi2 : π / 4 + phi / 2 < π / 2 - d := by rw [hd]; linarith
  have hone : (1.0 : ℝ) = 1 := by norm_num
  have hid : Real.tan phi + 1.0 / Real.cos phi = Real.tan (π / 4 + phi / 2) := by
    rw [tan_pi_div_four_add (by linarith) (by linarith),
      mul_div_cancel₀ _ (by norm_num : (2 : ℝ) ≠ 0), hone]
  have htd : (1 : ℝ) / 23.1406 < Real.tan d := by
    have hcub := add_cube_div_three_le_tan hd0.le hdhi
    have h3 : ((3.141592 : ℝ) * 2.47445 / 180) ^ 3 ≤ d ^ 3 :=
      pow_le_pow_left₀ (by norm_num) hdlo 3
    have hnum : (1 : ℝ) / 23.1406 <
        (3.141592 : ℝ) * 2.47445 / 180 + ((3.141592 : ℝ) * 2.47445 / 180) ^ 3 / 3 := by
      norm_num
    linarith
  have hexp : Real.exp (-π) < Real.tan d := by
    have : Real.exp (-π) < 1 / 23.1406 := by
      rw [Real.exp_neg, inv_eq_one_div]
      exact one_div_lt_one_div_of_lt (by norm_num) exp_pi_gt
    linarith
  have hlow : Real.tan d < Real.tan (π / 4 + phi / 2) :=
    Real.tan_lt_tan_of_lt_of_lt_pi_div_two (by linarith) (by linarith) hpsi1
  have hupp : Real.tan (π / 4 + phi / 2) < Real.tan (π / 2 - d) :=
    Real.tan_lt_tan_of_lt_of_lt_pi_div_two (by linarith) (by linarith) hpsi2
  have hpos : 0 < Real.tan (π / 4 + phi / 2) := lt_trans (by positivity) (lt_trans htd hlow)
  rw [hid]
  constructor
  · rw [Real.lt_log_iff_exp_lt hpos]
    exact lt_trans hexp hlow
  · rw [Real.log_lt_iff_lt_exp hpos]
    refine lt_trans hupp ?_
    rw [Real.tan_pi_div_two_sub]
    have hinv : (Real.tan d)⁻¹ < (Real.exp (-π))⁻¹ :=
      inv_strictAnti₀ (Real.exp_pos _) hexp
    rwa [Real.exp_neg, inv_inv] at hinv

theorem le_of_hasDerivAt_le {f g f' g' : ℝ → ℝ} (hf : ∀ x, HasDerivAt f (f' x) x)
    (hg : ∀ x, HasDerivAt g (g' x) x) (h0 : f 0 ≤ g 0) (h : ∀ x, 0 ≤ x → f' x ≤ g' x) :
    ∀ x, 0 ≤ x → f x ≤ g x := by
  intro x hx
  have hmono : MonotoneOn (fun y => g y - f y) (Set.Ici 0) := by
    apply monotoneOn_of_deriv_nonneg (convex_Ici 0)
    · exact fun y _ => ((hg y).sub (hf y)).continuousAt.continuousWithinAt
    · exact fun y _ => ((hg y).sub (hf y)).differentiableAt.differentiableWithinAt
    · intro y hy
      rw [interior_Ici] at hy
      rw [((hg y).sub (hf y)).deriv]
      linarith [h y hy.le]
  have := hmono Set.left_mem_Ici hx hx
  simp only at this
  linarith

theorem hasDerivAt_poly3 (x : ℝ) :
    HasDerivAt (fun y : ℝ => y - y ^ 3 / 6) (1 - x ^ 2 / 2) x := by
  have h := (hasDerivAt_id x).sub ((hasDerivAt_pow 3 x).div_const 6)
  convert h using 1
  norm_num
  ring

theorem hasDerivAt_poly4 (x : ℝ) :
    HasDerivAt (fun y : ℝ => 1 - y ^ 2 / 2 + y ^ 4 / 24) (-(x - x ^ 3 / 6)) x := by
  have h := ((hasDerivAt_const x (1 : ℝ)).sub ((hasDerivAt_pow 2 x).div_const 2)).add
    ((hasDerivAt_pow 4 x).div_const 24)
  convert h using 1
  norm_num
  ring

theorem hasDerivAt_poly5 (x : ℝ) :
    HasDerivAt (fun y : ℝ => y - y ^ 3 / 6 + y ^ 5 / 120) (1 - x ^ 2 / 2 + x ^ 4 / 24) x := by
  have h := ((hasDerivAt_id x).sub ((hasDerivAt_pow 3 x).div_const 6)).add
    ((hasDerivAt_pow 5 x).div_const 120)
  convert h using 1
  norm_num
  ring

theorem hasDerivAt_poly6 (x : ℝ) :
    HasDerivAt (fun y : ℝ => 1 - y ^ 2 / 2 + y ^ 4 / 24 - y ^ 6 / 720)
      (-(x - x ^ 3 / 6 + x ^ 5 / 120)) x := by
  have h := (((hasDerivAt_const x (1 : ℝ)).sub ((hasDerivAt_pow 2 x).div_const 2)).add
    ((hasDerivAt_pow 4 x).div_const 24)).sub ((hasDerivAt_pow 6 x).div_const 720)
  convert h using 1
  norm_num
  ring

theorem hasDerivAt_poly7 (x : ℝ) :
    HasDerivAt (fun y : ℝ => y - y ^ 3 / 6 + y ^ 5 / 120 - y ^ 7 / 5040)
      (1 - x ^ 2 / 2 + x ^ 4 / 24 - x ^ 6 / 720) x := by
  have h := (((hasDerivAt_id x).sub ((hasDerivAt_pow 3 x).div_const 6)).add
    ((hasDerivAt_pow 5 x).div_const 120)).sub ((hasDerivAt_pow 7 x).div_const 5040)
  convert h using 1
  norm_num
  ring

theorem sub_cube_le_sin {x : ℝ} (hx : 0 ≤ x) : x - x ^ 3 / 6 ≤ Real.sin x :=
  le_of_hasDerivAt_le hasDerivAt_poly3 Real.hasDerivAt_sin (by norm_num)
    (fun y _ => Real.one_sub_sq_div_two_le_cos) x hx

theorem cos_le_poly4 {x : ℝ} (hx : 0 ≤ x) : Real.cos x ≤ 1 - x ^ 2 / 2 + x ^ 4 / 24 :=
  le_of_hasDerivAt_le Real.hasDerivAt_cos hasDerivAt_poly4 (by norm_num)
    (fun y hy => neg_le_neg (sub_cube_le_sin hy)) x hx

theorem sin_le_poly5 {x : ℝ} (hx : 0 ≤ x) : Real.sin x ≤ x - x ^ 3 / 6 + x ^ 5 / 120 :=
  le_of_hasDerivAt_le Real.hasDerivAt_sin hasDerivAt_poly5 (by norm_num)
    (fun y hy => cos_le_poly4 hy) x hx

theorem poly6_le_cos {x : ℝ} (hx : 0 ≤ x) :
    1 - x ^ 2 / 2 + x ^ 4 / 24 - x ^ 6 / 720 ≤ Real.cos x :=
  le_of_hasDerivAt_le hasDerivAt_poly6 Real.hasDerivAt_cos (by norm_num)
    (fun y hy => neg_le_neg (sin_le_poly5 hy)) x hx

theorem poly7_le_sin {x : ℝ} (hx : 0 ≤ x) :
    x - x ^ 3 / 6 + x ^ 5 / 120 - x ^ 7 / 5040 ≤ Real.sin x :=
  le_of_hasDerivAt_le hasDerivAt_poly7 Real.hasDerivAt_sin (by norm_num)
    (fun y hy => poly6_le_cos hy) x hx

theorem exp_hi_gt : (2.9208 : ℝ) < Real.exp (π * 11180 / 32768) := by
  have hx : (3.141592 : ℝ) * 11180 / 32768 < π * 11180 / 32768 := by
    have := Real.pi_gt_d6
    linarith
  have h1 : (2.9208 : ℝ) <
      ∑ i ∈ Finset.range 9, ((3.141592 : ℝ) * 11180 / 32768) ^ i / (Nat.factorial i) := by
    simp only [Finset.sum_range_succ, Finset.sum_range_zero, Nat.factorial]
    norm_num
  have h2 := Real.sum_le_exp_of_nonneg
    (by norm_num : (0 : ℝ) ≤ (3.141592 : ℝ) * 11180 / 32768) 9
  have h3 := Real.exp_lt_exp.mpr hx
  linarith

theorem exp_lo_lt : Real.exp (π * 11179 / 32768) < (2.9207 : ℝ) := by
  have hx : π * 11179 / 32768 < (3.141593 : ℝ) * 11179 / 32768 := by
    have := Real.pi_lt_d6
    linarith
  have h3 := Real.exp_lt_exp.mpr hx
  have hhalf : Real.exp ((3.141593 : ℝ) * 11179 / 32768 / 2) ≤ 1.70897 := by
    have h := Real.exp_bound' (by norm_num : (0 : ℝ) ≤ (3.141593 : ℝ) * 11179 / 32768 / 2)
      (by norm_num) (by norm_num : 0 < 7)
    refine le_trans h ?_
    simp only [Finset.sum_range_succ, Finset.sum_range_zero, Nat.factorial]
    norm_num
  have hpos := Real.exp_pos ((3.141593 : ℝ) * 11179 / 32768 / 2)
  have hsq : Real.exp ((3.141593 : ℝ) * 11179 / 32768) =
      Real.exp ((3.141593 : ℝ) * 11179 / 32768 / 2) * Real.exp ((3.141593 : ℝ) * 11179 / 32768 / 2) := by
    rw [← Real.exp_add]
    congr 1
    ring
  have : Real.exp ((3.141593 : ℝ) * 11179 / 32768) ≤ 1.70897 * 1.70897 := by
    rw [hsq]
    exact mul_le_mul hhalf hhalf hpos.le (by norm_num)
  have h4 : (1.70897 : ℝ) * 1.70897 < 2.9207 := by norm_num
  linarith

/-- Bounds on the tangent of 18.9 degrees, the complement of π/4 + 52.2°/2. -/
theorem tan_pinned_bounds :
    (1 : ℝ) / 2.9208 < Real.tan (π * 0.105) ∧ Real.tan (π * 0.105) < 1 / 2.9207 := by
  have hp6 := Real.pi_gt_d6
  have hp4 := Real.pi_lt_d6
  have hxl : (3.141592 : ℝ) * 0.105 < π * 0.105 := by linarith
  have hxh : π * 0.105 < (3.141593 : ℝ) * 0.105 := by linarith
  have hhalf : (3.141593 : ℝ) * 0.105 < π / 2 := by linarith
  have hl0 : (0 : ℝ) ≤ (3.141592 : ℝ) * 0.105 := by norm_num
  have hh0 : (0 : ℝ) ≤ (3.141593 : ℝ) * 0.105 := by norm_num
  have hlo := Real.tan_lt_tan_of_lt_of_lt_pi_div_two (by linarith) (by linarith) hxl
  have hhi := Real.tan_lt_tan_of_lt_of_lt_pi_div_two (by linarith) hhalf hxh
  have hcl : 0 < Real.cos ((3.141592 : ℝ) * 0.105) :=
    Real.cos_pos_of_mem_Ioo ⟨by linarith, by linarith⟩
  constructor
  · refine lt_of_le_of_lt ?_ hlo
    rw [Real.tan_eq_sin_div_cos]
    have hs := poly7_le_sin hl0
    have hc := cos_le_poly4 hl0
    have hs0 : (0 : ℝ) ≤ (3.141592 : ℝ) * 0.105 - ((3.141592 : ℝ) * 0.105) ^ 3 / 6 +
        ((3.141592 : ℝ) * 0.105) ^ 5 / 120 - ((3.141592 : ℝ) * 0.105) ^ 7 / 5040 := by norm_num
    refine le_trans ?_ (div_le_div₀ (le_trans hs0 hs) hs hcl hc)
    norm_num
  · refine lt_of_lt_of_le hhi ?_
    rw [Real.tan_eq_sin_div_cos]
    have hs := sin_le_poly5 hh0
    have hc := poly6_le_cos hh0
    have hc0 : (0 : ℝ) < 1 - ((3.141593 : ℝ) * 0.105) ^ 2 / 2 + ((3.141593 : ℝ) * 0.105) ^ 4 / 24 -
        ((3.141593 : ℝ) * 0.105) ^ 6 / 720 := by norm_num
    have hs1 : (0 : ℝ) ≤ (3.141593 : ℝ) * 0.105 - ((3.141593 : ℝ) * 0.105) ^ 3 / 6 +
        ((3.141593 : ℝ) * 0.105) ^ 5 / 120 := by norm_num
    refine le_trans (div_le_div₀ hs1 hs hc0 hc) ?_
    norm_num

/-- The logarithm in the northing of latitude 52.2 lies in the window that puts the
pinned centre 84 whole pixels below the top of its tile at zoom 8. -/
theorem log_tan_pinned :
    π * 11179 / 32768 < Real.log (Real.tan (π / 4 + 52.2 * degToRad / 2)) ∧
      Real.log (Real.tan (π / 4 + 52.2 * degToRad / 2)) ≤ π * 11180 / 32768 := by
  obtain ⟨h1, h2⟩ := tan_pinned_bounds
  have harg : π / 4 + 52.2 * degToRad / 2 = π / 2 - π * 0.105 := by
    unfold degToRad; ring
  rw [harg, Real.tan_pi_div_two_sub]
  have ht0 : 0 < Real.tan (π * 0.105) := lt_trans (by norm_num) h1
  have hT1 : (2.9207 : ℝ) < (Real.tan (π * 0.105))⁻¹ := by
    rw [lt_inv_comm₀ (by norm_num) ht0]
    rw [inv_eq_one_div]
    exact h2
  have hT2 : (Real.tan (π * 0.105))⁻¹ < 2.9208 := by
    rw [inv_lt_comm₀ ht0 (by norm_num)]
    rw [inv_eq_one_div]
    exact h1
  have hpos : 0 < (Real.tan (π * 0.105))⁻¹ := inv_pos.mpr ht0
  constructor
  · rw [Real.lt_log_iff_exp_lt hpos]
    exact lt_trans exp_lo_lt hT1
  · rw [Real.log_le_iff_le_exp hpos]
    exact le_of_lt (lt_trans hT2 exp_hi_gt)

/-- At zoom 8 the tile of the start position of main, longitude 5.5 and latitude 52.2,
is the tile 131, 84. -/
theorem Tile_pinned : (wgs84.mk 5.5 52.2).Tile 8 = { x := 131, y := 84, z := 8 } := by
  have hp := Real.pi_pos
  obtain ⟨hL1, hL2⟩ := log_tan_pinned
  have h90 : |(52.2 : ℝ)| < 90 := by rw [abs_of_pos] <;> norm_num
  obtain ⟨hb1, hb2⟩ := latRad_bounds h90
  have hone : (1.0 : ℝ) = 1 := by norm_num
  have hid : Real.tan (52.2 * degToRad) + 1.0 / Real.cos (52.2 * degToRad) =
      Real.tan (π / 4 + 52.2 * degToRad / 2) := by
    rw [tan_pi_div_four_add (by linarith) (by linarith),
      mul_div_cancel₀ _ (by norm_num : (2 : ℝ) ≠ 0), hone]
  simp only [wgs84.Tile]
  rw [hid]
  set L := Real.log (Real.tan (π / 4 + 52.2 * degToRad / 2))
  have hn : (2.0 : ℝ) ^ (((8 : ℤ) : ℝ)) = 256 := by norm_num
  rw [hn]
  have hLpi1 : (11179 : ℝ) / 32768 < L / π := by rw [lt_div_iff₀ hp]; linarith
  have hLpi2 : L / π ≤ 11180 / 32768 := by rw [div_le_iff₀ hp]; linarith
  have hx : goInt (((5.5 : ℝ) + 180.0) / 360.0 * 256) = 131 := by
    unfold goInt
    rw [if_pos (by norm_num), Int.floor_eq_iff]
    constructor <;> norm_num
  have hy : ⌊(1.0 - L / π) / 2.0 * 256⌋ = 84 := by
    rw [Int.floor_eq_iff]
    constructor
    · norm_num; linarith
    · norm_num; linarith
  rw [hx, hy]

/-- For the view main starts with (longitude 5.5, latitude 52.2, zoom 8) and tile size
256, Draw finds the centre tile 131, 84 and the pixel offset -233, -84. -/
theorem Draw_center_pinned :
    Draw.center main.tilemap (Pt 256 256) = (⟨131, 84, 8⟩, Pt (-233) (-84)) := by
  have hp := Real.pi_pos
  obtain ⟨hL1, hL2⟩ := log_tan_pinned
  have hz : main.tilemap.zoom = 8 := by simp [main.tilemap, tileMap.zoom]
  have hc : main.tilemap.Center = (wgs84.mk 5.5 52.2).Webmerc := rfl
  have htc : (wgs84.mk 5.5 52.2).Webmerc.Tile 8 = ⟨131, 84, 8⟩ := by
    rw [webmerc.Tile, Webmerc_Wgs84_eq _ (by show |(52.2 : ℝ)| < 90; rw [abs_of_pos] <;> norm_num),
      Tile_pinned]
  simp only [Draw.center, hz, hc, htc, tile_Webmerc_eq, tile_WebmercSize_eq, Pt]
  simp only [wgs84.Webmerc]
  set L := Real.log (Real.tan (π / 4 + 52.2 * degToRad / 2))
  have hLpi1 : (11179 : ℝ) / 32768 < L / π := by rw [lt_div_iff₀ hp]; linarith
  have hLpi2 : L / π ≤ 11180 / 32768 := by rw [div_le_iff₀ hp]; linarith
  have hn : (2 : ℝ) ^ (((8 : ℤ) : ℝ)) = 256 := by norm_num
  rw [hn]
  have hxv : ((256 : ℤ) : ℝ) *
      (6378137.0 * ((((131 : ℤ) : ℝ) / 256 * 360.0 - 180.0) * degToRad) -
        6378137.0 * (5.5 * degToRad)) / (2 * π * 6378137.0 / 256) = -(10496 / 45) := by
    unfold degToRad
    push_cast
    field_simp
    ring
  have hyv : ((256 : ℤ) : ℝ) *
      (6378137.0 * (π * (1 - 2 * ((84 : ℤ) : ℝ) / 256)) - 6378137.0 * L) /
        -(2 * π * 6378137.0 / 256) = 32768 * (L / π) - 11264 := by
    push_cast
    field_simp
    ring
  have hx : goInt (-(10496 / 45 : ℝ)) = -233 := by
    unfold goInt
    rw [if_neg (by norm_num), Int.ceil_eq_iff]
    constructor <;> norm_num
  have hy : goInt (32768 * (L / π) - 11264) = -84 := by
    unfold goInt
    rw [if_neg (by linarith), Int.ceil_eq_iff]
    constructor
    · push_cast; linarith
    · push_cast; linarith
  rw [hxv, hyv, hx, hy]

/-! ## Zoom handling -/

/-- A point lies in the intersection of two rectangles exactly when it lies in both. -/
theorem Point.In_Intersect (p : Point) (r s : Rectangle) :
    p.In (r.Intersect s) ↔ p.In r ∧ p.In s := by
  obtain ⟨⟨a, b⟩, ⟨c, d⟩⟩ := r
  obtain ⟨⟨e, f⟩, ⟨g, h⟩⟩ := s
  obtain ⟨x, y⟩ := p
  simp only [Rectangle.Intersect, Rectangle.Empty, Point.In, ZR, ZP]
  split_ifs <;> simp_all <;> omega

/-- The cells of a grid are the pairs tx, ty with 0 <= tx < ntx and 0 <= ty < nty. -/
theorem Draw.mem_cells (g : Grid) (c : ℤ × ℤ) :
    c ∈ Draw.cells g ↔ 0 ≤ c.1 ∧ c.1 < g.ntx ∧ 0 ≤ c.2 ∧ c.2 < g.nty := by
  obtain ⟨tx, ty⟩ := c
  unfold Draw.cells
  rw [List.mem_flatMap]
  constructor
  · rintro ⟨a, ha, hc⟩
    rw [List.mem_map] at hc
    obtain ⟨b, hb, hab⟩ := hc
    rw [List.mem_range] at ha hb
    rw [Prod.mk.injEq] at hab
    obtain ⟨h1, h2⟩ := hab
    show 0 ≤ tx ∧ tx < g.ntx ∧ 0 ≤ ty ∧ ty < g.nty
    simp only [Int.ofNat_eq_coe] at h1 h2
    omega
  · intro h
    have h1 : 0 ≤ tx ∧ tx < g.ntx ∧ 0 ≤ ty ∧ ty < g.nty := h
    refine ⟨tx.toNat, List.mem_range.mpr (by omega), ?_⟩
    rw [List.mem_map]
    refine ⟨ty.toNat, List.mem_range.mpr (by omega), ?_⟩
    rw [Prod.mk.injEq]
    simp only [Int.ofNat_eq_coe]
    constructor <;> omega

/-- C4: for the pinned view (centre at longitude 5.5, latitude 52.2, zoom 8, viewport
800x600, tile size 256) Draw derives the centre tile 131, 84 and the pixel offset
-233, -84 and computes t0 = 130, 83, p0 = -89, -40, ntx = 5 and nty = 3; every pixel of
the viewport lies in the destination rectangle of a cell of that grid, and in the
256x256 square at p0 + (tx,ty)*256 of that cell; and no tile address is requested
twice. -/
theorem Draw_pinned_view_covered (orig p : Point)
    (hp : p.In ((rect (Pt 800 600)).Add orig)) :
    Draw.center main.tilemap (Pt 256 256) = (⟨131, 84, 8⟩, Pt (-233) (-84)) ∧
      Draw.plan main.tilemap (Pt 256 256) (rect (Pt 800 600)) =
        ⟨⟨130, 83, 8⟩, ⟨-89, -40⟩, 5, 3⟩ ∧
      (∃ c ∈ Draw.cells (Draw.plan main.tilemap (Pt 256 256) (rect (Pt 800 600))),
        p.In (Draw.dest (rect (Pt 800 600)) orig (Pt 256 256)
          (Draw.plan main.tilemap (Pt 256 256) (rect (Pt 800 600))).p0 c).1 ∧
        p.In (((rect (Pt 256 256)).Add
          ((Draw.plan main.tilemap (Pt 256 256) (rect (Pt 800 600))).p0.Add
            (Pt (c.1 * 256) (c.2 * 256)))).Add orig)) ∧
      (Draw.requested main.tilemap (Pt 256 256) (rect (Pt 800 600))).Nodup := by
  have hz : main.tilemap.zoom = 8 := by simp [main.tilemap, tileMap.zoom]
  have hg : Draw.plan main.tilemap (Pt 256 256) (rect (Pt 800 600)) =
      ⟨⟨130, 83, 8⟩, ⟨-89, -40⟩, 5, 3⟩ := by
    unfold Draw.plan
    rw [Draw_center_pinned, hz]
    decide
  refine ⟨Draw_center_pinned, hg, ?_, ?_⟩
  · rw [hg]
    obtain ⟨ox, oy⟩ := orig
    obtain ⟨x, y⟩ := p
    simp only [Point.In, rect, Rectangle.Add, Point.Add, Pt, ZP] at hp
    refine ⟨((x - ox + 89) / 256, (y - oy + 40) / 256), ?_, ?_, ?_⟩
    · rw [Draw.mem_cells]
      simp only
      omega
    · simp only [Draw.dest, Point.In_Intersect]
      simp only [Point.In, rect, Rectangle.Add, Point.Add, Pt, ZP]
      split_ifs <;> dsimp only at * <;> omega
    · simp only [Point.In, rect, Rectangle.Add, Point.Add, Pt, ZP]
      omega
  · unfold Draw.requested
    rw [hg, hz]
    decide

/-- Witness for C4: the top left pixel of the viewport. -/
theorem Draw_pinned_view_covered_witness :
    (Pt 0 0).In ((rect (Pt 800 600)).Add ZP) ∧
      ∃ c ∈ Draw.cells (Draw.plan main.tilemap (Pt 256 256) (rect (Pt 800 600))),
        (Pt 0 0).In (Draw.dest (rect (Pt 800 600)) ZP (Pt 256 256)
          (Draw.plan main.tilemap (Pt 256 256) (rect (Pt 800 600))).p0 c).1 ∧
        (Pt 0 0).In (((rect (Pt 256 256)).Add
          ((Draw.plan main.tilemap (Pt 256 256) (rect (Pt 800 600))).p0.Add
            (Pt (c.1 * 256) (c.2 * 256)))).Add ZP) :=
  ⟨by decide, (Draw_pinned_view_covered ZP (Pt 0 0) (by decide)).2.2.1⟩

/-- Longitude 0, latitude 0 projects to easting 0, northing 0. -/
theorem Webmerc_origin : (wgs84.mk 0 0).Webmerc = { E := 0, N := 0 } := by
  simp [wgs84.Webmerc, Real.tan_pi_div_four]

/-- At zoom 1 the tile of longitude 0, latitude 0 is the tile 1, 1. -/
theorem Tile_origin_zoom_one : (wgs84.mk 0 0).Tile 1 = { x := 1, y := 1, z := 1 } := by
  simp only [wgs84.Tile]
  have hx : goInt (((0 : ℝ) + 180.0) / 360.0 * (2.0 : ℝ) ^ (((1 : ℤ) : ℝ))) = 1 := by
    have : ((0 : ℝ) + 180.0) / 360.0 * (2.0 : ℝ) ^ (((1 : ℤ) : ℝ)) = ((1 : ℤ) : ℝ) := by
      norm_num
    unfold goInt
    rw [this, if_pos (by norm_num), Int.floor_intCast]
  have hy : ⌊(1.0 - Real.log (Real.tan ((0 : ℝ) * degToRad) + 1.0 / Real.cos ((0 : ℝ) * degToRad)) / π)
      / 2.0 * (2.0 : ℝ) ^ (((1 : ℤ) : ℝ))⌋ = 1 := by
    have : (1.0 - Real.log (Real.tan ((0 : ℝ) * degToRad) + 1.0 / Real.cos ((0 : ℝ) * degToRad)) / π)
        / 2.0 * (2.0 : ℝ) ^ (((1 : ℤ) : ℝ)) = ((1 : ℤ) : ℝ) := by
      norm_num
    rw [this, Int.floor_intCast]
  rw [hx, hy]

/-- For the view centred at longitude 0, latitude 0 with Zoom 1, Draw finds the
centre tile 1, 1 and the pixel offset 0, 0. -/
theorem Draw_center_origin :
    Draw.center main.tilemapOrigin (Pt 256 256) = (⟨1, 1, 1⟩, Pt 0 0) := by
  have hz : main.tilemapOrigin.zoom = 1 := by
    simp [main.tilemapOrigin, main.tilemap, tileMap.zoom]
  have hc : main.tilemapOrigin.Center = { E := 0, N := 0 } := Webmerc_origin
  have htc : (webmerc.mk 0 0).Tile 1 = ⟨1, 1, 1⟩ := by
    rw [← Webmerc_origin, webmerc.Tile, Webmerc_Wgs84_eq _ (by norm_num), Tile_origin_zoom_one]
  simp only [Draw.center, hz, hc, htc, tile_Webmerc_eq, tile_WebmercSize_eq, Pt]
  have hx : goInt (((256 : ℤ) : ℝ) *
      (6378137.0 * ((((1 : ℤ) : ℝ) / (2 : ℝ) ^ (((1 : ℤ) : ℝ)) * 360.0 - 180.0) * degToRad) - 0) /
      (2 * π * 6378137.0 / (2 : ℝ) ^ (((1 : ℤ) : ℝ)))) = 0 := by
    have : (((256 : ℤ) : ℝ) *
      (6378137.0 * ((((1 : ℤ) : ℝ) / (2 : ℝ) ^ (((1 : ℤ) : ℝ)) * 360.0 - 180.0) * degToRad) - 0) /
      (2 * π * 6378137.0 / (2 : ℝ) ^ (((1 : ℤ) : ℝ)))) = ((0 : ℤ) : ℝ) := by
      norm_num
    unfold goInt
    rw [this, if_pos (by norm_num), Int.floor_intCast]
  have hy : goInt (((256 : ℤ) : ℝ) *
      (6378137.0 * (π * (1 - 2 * ((1 : ℤ) : ℝ) / (2 : ℝ) ^ (((1 : ℤ) : ℝ)))) - 0) /
      -(2 * π * 6378137.0 / (2 : ℝ) ^ (((1 : ℤ) : ℝ)))) = 0 := by
    have : (((256 : ℤ) : ℝ) *
      (6378137.0 * (π * (1 - 2 * ((1 : ℤ) : ℝ) / (2 : ℝ) ^ (((1 : ℤ) : ℝ)))) - 0) /
      -(2 * π * 6378137.0 / (2 : ℝ) ^ (((1 : ℤ) : ℝ)))) = ((0 : ℤ) : ℝ) := by
      norm_num
    unfold goInt
    rw [this, if_pos (by norm_num), Int.floor_intCast]
  rw [hx, hy]

/-- What holds of the grid for every viewport W x H, tile size T > 0 and offset with
-T < ox, oy <= 0: the origin p0 is not right of or below the viewport origin, and the
cells end less than one tile short of the right and bottom edges of the viewport. -/
theorem Draw.grid_bounds (W H T zoom : ℤ) (tc : tile) (offset : Point)
    (hW : 0 < W) (hH : 0 < H) (hT : 0 < T)
    (hox1 : -T < offset.X) (hox2 : offset.X ≤ 0) (hoy1 : -T < offset.Y) (hoy2 : offset.Y ≤ 0) :
    (Draw.grid (rect (Pt W H)) (Pt T T) zoom tc offset).p0.X ≤ 0 ∧
      (Draw.grid (rect (Pt W H)) (Pt T T) zoom tc offset).p0.Y ≤ 0 ∧
      W - T < (Draw.grid (rect (Pt W H)) (Pt T T) zoom tc offset).p0.X +
        (Draw.grid (rect (Pt W H)) (Pt T T) zoom tc offset).ntx * T ∧
      H - T < (Draw.grid (rect (Pt W H)) (Pt T T) zoom tc offset).p0.Y +
        (Draw.grid (rect (Pt W H)) (Pt T T) zoom tc offset).nty * T := by
  obtain ⟨ox, oy⟩ := offset
  simp only [Draw.grid, rect, Pt, ZP, Rectangle.Dx, Rectangle.Dy, Rectangle.Size, Point.Add,
    Point.Div, sub_zero] at *
  have hW2 : 0 ≤ W.tdiv 2 := Int.tdiv_nonneg hW.le (by norm_num)
  have hH2 : 0 ≤ H.tdiv 2 := Int.tdiv_nonneg hH.le (by norm_num)
  have hW2le : W.tdiv 2 ≤ W := by
    rw [Int.tdiv_eq_ediv hW.le (by norm_num)]; omega
  have hH2le : H.tdiv 2 ≤ H := by
    rw [Int.tdiv_eq_ediv hH.le (by norm_num)]; omega
  have key : ∀ a : ℤ, 0 ≤ a → a.tdiv T * T ≤ a ∧ a < (a.tdiv T + 1) * T := by
    intro a ha
    rw [Int.tdiv_eq_ediv ha hT.le]
    exact ⟨Int.ediv_mul_le a hT.ne.symm, Int.lt_ediv_add_one_mul_self a hT⟩
  obtain ⟨kx1, kx2⟩ := key (W.tdiv 2 + ox + T - 1) (by omega)
  obtain ⟨ky1, ky2⟩ := key (H.tdiv 2 + oy + T - 1) (by omega)
  obtain ⟨nx1, nx2⟩ := key (-ox + W + T - 1) (by omega)
  obtain ⟨ny1, ny2⟩ := key (-oy + H + T - 1) (by omega)
  refine ⟨?_, ?_, ?_, ?_⟩ <;> nlinarith

/-- Evaluation for C9 at its failing input: for the view centred at longitude 0,
latitude 0 with zoom 1, viewport 800x600 and tile size 256, Draw derives the centre tile
1, 1 and the offset 0, 0 (so W, H, T > 0 and -T < ox, oy <= 0) and computes
p0 = -112, -212, ntx = 4, nty = 3: p0.X <= 0, p0.Y <= 0 and p0.X + ntx*256 >= 800 hold,
but p0.Y + nty*256 = 556 < 600, and the viewport pixel 0, 556 lies in the destination
rectangle of no cell. -/
theorem Draw_grid_rows_uncovered :
    Draw.center main.tilemapOrigin (Pt 256 256) = (⟨1, 1, 1⟩, Pt 0 0) ∧
      Draw.plan main.tilemapOrigin (Pt 256 256) (rect (Pt 800 600)) =
        ⟨⟨-1, -1, 1⟩, ⟨-112, -212⟩, 4, 3⟩ ∧
      (Draw.plan main.tilemapOrigin (Pt 256 256) (rect (Pt 800 600))).p0.Y +
        (Draw.plan main.tilemapOrigin (Pt 256 256) (rect (Pt 800 600))).nty * 256 < 600 ∧
      (Pt 0 556).In (rect (Pt 800 600)) ∧
      ∀ c ∈ Draw.cells (Draw.plan main.tilemapOrigin (Pt 256 256) (rect (Pt 800 600))),
        ¬ (Pt 0 556).In (Draw.dest (rect (Pt 800 600)) ZP (Pt 256 256)
          (Draw.plan main.tilemapOrigin (Pt 256 256) (rect (Pt 800 600))).p0 c).1 := by
  have hz : main.tilemapOrigin.zoom = 1 := by
    simp [main.tilemapOrigin, main.tilemap, tileMap.zoom]
  have hg : Draw.plan main.tilemapOrigin (Pt 256 256) (rect (Pt 800 600)) =
      ⟨⟨-1, -1, 1⟩, ⟨-112, -212⟩, 4, 3⟩ := by
    unfold Draw.plan
    rw [Draw_center_origin, hz]
    decide
  rw [hg]
  exact ⟨Draw_center_origin, rfl, by decide, by decide, by decide⟩

/-- The zoom Draw uses lies between ZoomMin and ZoomMax when ZoomMin <= ZoomMax. -/
theorem zoom_bounds (ui : tileMap) (h : ui.ZoomMin ≤ ui.ZoomMax) :
    ui.ZoomMin ≤ ui.zoom ∧ ui.zoom ≤ ui.ZoomMax := by
  simp only [tileMap.zoom]
  split_ifs <;> omega

/-- The real power of two of wgs84.Tile and tile.Wgs84 is the integer power of two for
a zoom that is not negative. -/
theorem two_rpow_zoom (z : ℤ) (hz : 0 ≤ z) :
    (2 : ℝ) ^ ((z : ℤ) : ℝ) = (((2 : ℤ) ^ z.toNat : ℤ) : ℝ) := by
  have h : ((z : ℤ) : ℝ) = ((z.toNat : ℕ) : ℝ) := by
    rw [← Int.cast_natCast, Int.toNat_of_nonneg hz]
  rw [h, Real.rpow_natCast]
  push_cast
  rfl

/-- Inside the mercator band and for a longitude in [-180, 180), the tile of a
location at a zoom that is not negative satisfies the tile address invariant. -/
theorem Tile_valid (g : wgs84) (z : ℤ) (hz : 0 ≤ z) (hlat : |g.ylat| < 85.0511)
    (hlo : -180 ≤ g.xlon) (hhi : g.xlon < 180) : (g.Tile z).valid := by
  have hp := Real.pi_pos
  obtain ⟨hL1, hL2⟩ := log_tan_add_sec_band hlat
  obtain ⟨xlon, ylat⟩ := g
  simp only [wgs84.Tile, tile.valid] at *
  have h20 : (2.0 : ℝ) = 2 := by norm_num
  rw [h20, two_rpow_zoom z hz]
  set L := Real.log (Real.tan (ylat * degToRad) + 1.0 / Real.cos (ylat * degToRad))
  have hLpi1 : -1 < L / π := by rw [lt_div_iff₀ hp]; linarith
  have hLpi2 : L / π < 1 := by rw [div_lt_iff₀ hp]; linarith
  have hn : (0 : ℝ) < (((2 : ℤ) ^ z.toNat : ℤ) : ℝ) := by
    have : (0 : ℤ) < (2 : ℤ) ^ z.toNat := by positivity
    exact_mod_cast this
  set n : ℝ := (((2 : ℤ) ^ z.toNat : ℤ) : ℝ) with hndef
  have hu0 : 0 ≤ (xlon + 180.0) / 360.0 := by norm_num; linarith
  have hu1 : (xlon + 180.0) / 360.0 < 1 := by norm_num; linarith
  have hv0 : 0 ≤ (1.0 - L / π) / 2 := by norm_num; linarith
  have hv1 : (1.0 - L / π) / 2 < 1 := by norm_num; linarith
  have hx0 : 0 ≤ (xlon + 180.0) / 360.0 * n := by positivity
  have hx1 : (xlon + 180.0) / 360.0 * n < n := by nlinarith
  have hy0 : 0 ≤ (1.0 - L / π) / 2 * n := by positivity
  have hy1 : (1.0 - L / π) / 2 * n < n := by nlinarith
  have hgo : goInt ((xlon + 180.0) / 360.0 * n) = ⌊(xlon + 180.0) / 360.0 * n⌋ := by
    unfold goInt; rw [if_pos hx0]
  rw [hgo]
  refine ⟨hz, Int.floor_nonneg.mpr hx0, ?_, Int.floor_nonneg.mpr hy0, ?_⟩
  · rw [Int.floor_lt]; exact hx1
  · rw [Int.floor_lt]; exact hy1

/-- The tiles of a grid are the tiles t0.x + tx, t0.y + ty of its cells. -/
theorem Draw.mem_tiles (g : Grid) (zoom : ℤ) (t : tile) :
    t ∈ Draw.tiles g zoom ↔
      t.z = zoom ∧ g.t0.x ≤ t.x ∧ t.x < g.t0.x + g.ntx ∧ g.t0.y ≤ t.y ∧
        t.y < g.t0.y + g.nty := by
  unfold Draw.tiles
  rw [List.mem_map]
  constructor
  · rintro ⟨c, hc, rfl⟩
    rw [Draw.mem_cells] at hc
    obtain ⟨h1, h2, h3, h4⟩ := hc
    refine ⟨rfl, ?_, ?_, ?_, ?_⟩
    · show g.t0.x ≤ g.t0.x + c.1; omega
    · show g.t0.x + c.1 < g.t0.x + g.ntx; omega
    · show g.t0.y ≤ g.t0.y + c.2; omega
    · show g.t0.y + c.2 < g.t0.y + g.nty; omega
  · rintro ⟨h1, h2, h3, h4, h5⟩
    refine ⟨(t.x - g.t0.x, t.y - g.t0.y), (Draw.mem_cells g _).mpr ⟨?_, ?_, ?_, ?_⟩, ?_⟩
    · show 0 ≤ t.x - g.t0.x; omega
    · show t.x - g.t0.x < g.ntx; omega
    · show 0 ≤ t.y - g.t0.y; omega
    · show t.y - g.t0.y < g.nty; omega
    · obtain ⟨x, y, z⟩ := t
      simp only [Draw.cellTile, tile.mk.injEq]
      simp only at h1
      omega

theorem World.Inv_init : World.init.Inv := by
  refine ⟨List.nodup_nil, ?_, ?_⟩
  · intro t ht
    simp [World.init] at ht
  · intro l hl
    simp [World.init, main.tilemap] at hl

/-- What Draw does for one tile link, by cases. -/
theorem Draw.body_cases (w : World) (tl : tileLink) :
    ((w.ui.tileImages tl ≠ none ∨ w.ui.tileBusy tl = true) ∧ Draw.body w tl = w) ∨
      (w.ui.tileImages tl = none ∧ w.ui.tileBusy tl = false ∧
        Draw.body w tl =
          { ui := { w.ui with tileBusy := fun k => if k = tl then true else w.ui.tileBusy k }
            tasks := w.tasks ++ [{ tl := tl, tbuf := w.ui.tileFiles tl }] }) := by
  unfold Draw.body
  cases himg : w.ui.tileImages tl with
  | some img => left; exact ⟨Or.inl (by simp), rfl⟩
  | none =>
    cases hbusy : w.ui.tileBusy tl with
    | true => left; exact ⟨Or.inr rfl, by simp⟩
    | false =>
      right
      refine ⟨rfl, rfl, ?_⟩
      cases hfile : w.ui.tileFiles tl <;> simp

theorem Draw.body_Inv (w : World) (tl : tileLink) (h : w.Inv) : (Draw.body w tl).Inv := by
  rcases Draw.body_cases w tl with ⟨-, he⟩ | ⟨himg, hbusy, he⟩
  · rw [he]; exact h
  · rw [he]
    obtain ⟨h1, h2, h3⟩ := h
    refine ⟨?_, ?_, ?_⟩
    · simp only [List.map_append, List.map_cons, List.map_nil]
      rw [List.nodup_append]
      refine ⟨h1, List.nodup_singleton _, ?_⟩
      intro a ha hb
      rw [List.mem_singleton] at hb
      subst hb
      rw [List.mem_map] at ha
      obtain ⟨t, ht, rfl⟩ := ha
      have := h2 t ht
      rw [hbusy] at this
      exact Bool.noConfusion this
    · intro t ht
      simp only [List.mem_append, List.mem_singleton] at ht
      show (if t.tl = tl then true else w.ui.tileBusy t.tl) = true
      rcases ht with ht | rfl
      · split_ifs
        · rfl
        · exact h2 t ht
      · simp
    · intro l hl
      show w.ui.tileImages l = none
      have hl2 : (if l = tl then true else w.ui.tileBusy l) = true := hl
      by_cases hlt : l = tl
      · rw [hlt]; exact himg
      · rw [if_neg hlt] at hl2
        exact h3 l hl2

/-- A property of the tile state that one loop body of Draw keeps is kept by a whole
pass of Draw. -/
theorem Draw.pass_keeps (P : World → Prop) (hP : ∀ w tl, P w → P (Draw.body w tl))
    (w : World) (hiDPI : Bool) (R : Rectangle) (tc : tile) (offset : Point) (h : P w) :
    P (Draw.pass w hiDPI R tc offset) := by
  unfold Draw.pass
  simp only
  generalize Draw.tiles _ _ = ts
  generalize (w.ui.tileConfig hiDPI).1 = url
  induction ts generalizing w with
  | nil => exact h
  | cons t ts ih => exact ih _ (hP w _ h)

/-- A task that is not the erased one has another tile link, when the links of the
tasks are different. -/
theorem tl_ne_of_mem_eraseIdx (l : List Task) (i : ℕ) (t : Task) (h : l.get? i = some t)
    (hn : (l.map Task.tl).Nodup) : ∀ u ∈ l.eraseIdx i, u.tl ≠ t.tl := by
  induction l generalizing i with
  | nil => simp at h
  | cons a l ih =>
    rw [List.map_cons, List.nodup_cons] at hn
    obtain ⟨hna, hnl⟩ := hn
    cases i with
    | zero =>
      simp only [List.get?_cons_zero, Option.some.injEq] at h
      subst h
      intro u hu heq
      simp only [List.eraseIdx_cons_zero] at hu
      exact hna (heq ▸ List.mem_map_of_mem Task.tl hu)
    | succ k =>
      simp only [List.get?_cons_succ] at h
      intro u hu
      simp only [List.eraseIdx_cons_succ, List.mem_cons] at hu
      rcases hu with rfl | hu
      · intro heq
        exact hna (heq ▸ List.mem_map_of_mem Task.tl (List.get?_mem h))
      · exact ih k h hnl u hu

theorem mem_of_mem_eraseIdx_tasks (l : List Task) (i : ℕ) (u : Task) (h : u ∈ l.eraseIdx i) :
    u ∈ l :=
  (List.eraseIdx_sublist l i).subset h

theorem World.step_Inv (w : World) (e : Event) (h : w.Inv) : (w.step e).Inv := by
  cases e with
  | draw dui R =>
    exact Draw.pass_keeps World.Inv Draw.body_Inv w _ R _ _ h
  | input v => exact h
  | recv i image body =>
    simp only [World.step]
    cases hget : w.tasks.get? i with
    | none => exact h
    | some t =>
      obtain ⟨h1, h2, h3⟩ := h
      have hne := tl_ne_of_mem_eraseIdx w.tasks i t hget h1
      refine ⟨((List.eraseIdx_sublist w.tasks i).map Task.tl).nodup h1, ?_, ?_⟩
      · intro u hu
        show (if u.tl = t.tl then false else w.ui.tileBusy u.tl) = true
        rw [if_neg (hne u hu)]
        exact h2 u (mem_of_mem_eraseIdx_tasks _ _ _ hu)
      · intro l hl
        have hl2 : (if l = t.tl then false else w.ui.tileBusy l) = true := hl
        show (if l = t.tl then some image else w.ui.tileImages l) = none
        by_cases hlt : l = t.tl
        · rw [if_pos hlt] at hl2
          exact Bool.noConfusion hl2
        · rw [if_neg hlt] at hl2 ⊢
          exact h3 l hl2
  | fail i =>
    obtain ⟨h1, h2, h3⟩ := h
    exact ⟨((List.eraseIdx_sublist w.tasks i).map Task.tl).nodup h1,
      fun u hu => h2 u (mem_of_mem_eraseIdx_tasks _ _ _ hu), h3⟩

theorem World.run_keeps (P : World → Prop) (hP : ∀ w e, P w → P (w.step e)) (w : World)
    (evs : List Event) (h : P w) : P (w.run evs) := by
  unfold World.run
  induction evs generalizing w with
  | nil => exact h
  | cons e evs ih => exact ih _ (hP w e h)

theorem World.run_Inv (evs : List Event) : (World.init.run evs).Inv :=
  World.run_keeps World.Inv World.step_Inv _ evs World.Inv_init

theorem Draw.body_Stuck (l : tileLink) (w : World) (tl : tileLink) (h : w.Stuck l) :
    (Draw.body w tl).Stuck l := by
  rcases Draw.body_cases w tl with ⟨-, he⟩ | ⟨himg, hbusy, he⟩
  · rw [he]; exact h
  · rw [he]
    obtain ⟨h1, h2, h3⟩ := h
    have hne : tl ≠ l := by
      rintro rfl
      rw [hbusy] at h1
      exact Bool.noConfusion h1
    refine ⟨?_, h2, ?_⟩
    · show (if l = tl then true else w.ui.tileBusy l) = true
      rw [if_neg (Ne.symm hne)]
      exact h1
    · intro u hu
      simp only [List.mem_append, List.mem_singleton] at hu
      rcases hu with hu | rfl
      · exact h3 u hu
      · exact hne

theorem World.step_Stuck (l : tileLink) (w : World) (e : Event) (h : w.Stuck l) :
    (w.step e).Stuck l := by
  cases e with
  | draw dui R =>
    exact Draw.pass_keeps (fun w => w.Stuck l) (Draw.body_Stuck l) w _ R _ _ h
  | input v => exact h
  | recv i image body =>
    simp only [World.step]
    cases hget : w.tasks.get? i with
    | none => exact h
    | some t =>
      obtain ⟨h1, h2, h3⟩ := h
      have hne : l ≠ t.tl := Ne.symm (h3 t (List.get?_mem hget))
      refine ⟨?_, ?_, fun u hu => h3 u (mem_of_mem_eraseIdx_tasks _ _ _ hu)⟩
      · show (if l = t.tl then false else w.ui.tileBusy l) = true
        rw [if_neg hne]
        exact h1
      · show (if l = t.tl then some image else w.ui.tileImages l) = none
        rw [if_neg hne]
        exact h2
  | fail i =>
    obtain ⟨h1, h2, h3⟩ := h
    exact ⟨h1, h2, fun u hu => h3 u (mem_of_mem_eraseIdx_tasks _ _ _ hu)⟩

/-- When a goroutine fails in a state that satisfies the invariant, its tile link is
left marked busy, without image and without goroutine. -/
theorem World.fail_Stuck (w : World) (i : ℕ) (t : Task) (hinv : w.Inv)
    (h : w.tasks.get? i = some t) : (w.step (Event.fail i)).Stuck t.tl := by
  obtain ⟨h1, h2, h3⟩ := hinv
  have hb := h2 t (List.get?_mem h)
  exact ⟨hb, h3 _ hb, tl_ne_of_mem_eraseIdx w.tasks i t h h1⟩

theorem World.run_append (w : World) (evs1 evs2 : List Event) :
    w.run (evs1 ++ evs2) = (w.run evs1).run evs2 := by
  unfold World.run
  rw [List.foldl_append]

theorem Draw.body_eq_of_busy (w : World) (tl : tileLink) (h : w.ui.tileBusy tl = true) :
    Draw.body w tl = w := by
  rcases Draw.body_cases w tl with ⟨-, he⟩ | ⟨-, hbusy, -⟩
  · exact he
  · rw [h] at hbusy
    exact Bool.noConfusion hbusy

/-- C3: in every state reached from the start of main by Draw passes, input handlers,
results received by the loop of main and failed goroutines, at most one goroutine is
outstanding for a tile link; Draw starts a goroutine for a link only when the link has
no decoded image and no busy mark, and then the link is marked busy and exactly one
goroutine is added; for a link with an outstanding goroutine Draw changes nothing; and a
second request for the same link right after the first changes nothing. -/
theorem fetch_dedup (evs : List Event) (tl : tileLink) :
    ((World.init.run evs).tasks.map Task.tl).count tl ≤ 1 ∧
      ((Draw.body (World.init.run evs) tl).tasks ≠ (World.init.run evs).tasks →
        (World.init.run evs).ui.tileImages tl = none ∧
        (World.init.run evs).ui.tileBusy tl = false ∧
        (Draw.body (World.init.run evs) tl).ui.tileBusy tl = true ∧
        (Draw.body (World.init.run evs) tl).tasks =
          (World.init.run evs).tasks ++
            [{ tl := tl, tbuf := (World.init.run evs).ui.tileFiles tl }]) ∧
      (tl ∈ (World.init.run evs).tasks.map Task.tl →
        Draw.body (World.init.run evs) tl = World.init.run evs) ∧
      Draw.body (Draw.body (World.init.run evs) tl) tl = Draw.body (World.init.run evs) tl := by
  have hinv := World.run_Inv evs
  generalize World.init.run evs = w at hinv
  obtain ⟨h1, h2, h3⟩ := hinv
  refine ⟨List.nodup_iff_count_le_one.mp h1 tl, ?_, ?_, ?_⟩
  · intro hne
    rcases Draw.body_cases w tl with ⟨-, he⟩ | ⟨himg, hbusy, he⟩
    · rw [he] at hne
      exact absurd rfl hne
    · refine ⟨himg, hbusy, ?_, ?_⟩
      · rw [he]
        show (if tl = tl then true else w.ui.tileBusy tl) = true
        rw [if_pos rfl]
      · rw [he]
  · intro hmem
    rw [List.mem_map] at hmem
    obtain ⟨t, ht, rfl⟩ := hmem
    exact Draw.body_eq_of_busy w t.tl (h2 t ht)
  · rcases Draw.body_cases w tl with ⟨-, he⟩ | ⟨himg, hbusy, he⟩
    · rw [he, he]
    · apply Draw.body_eq_of_busy
      rw [he]
      show (if tl = tl then true else w.ui.tileBusy tl) = true
      rw [if_pos rfl]

/-- C10: when a goroutine of a tile link fails, the failure itself leaves the tile maps
as they are (nothing is sent), and in every later state the link is still marked busy,
has no decoded image and has no outstanding goroutine; Draw changes nothing for that
link, and no goroutine left by a whole Draw is one for that link. -/
theorem failed_tile_never_retried (evs1 evs2 : List Event) (i : ℕ) (t : Task)
    (h : (World.init.run evs1).tasks.get? i = some t) :
    ((World.init.run evs1).step (Event.fail i)).ui = (World.init.run evs1).ui ∧
      (World.init.run (evs1 ++ Event.fail i :: evs2)).ui.tileBusy t.tl = true ∧
      (World.init.run (evs1 ++ Event.fail i :: evs2)).ui.tileImages t.tl = none ∧
      (∀ u ∈ (World.init.run (evs1 ++ Event.fail i :: evs2)).tasks, u.tl ≠ t.tl) ∧
      Draw.body (World.init.run (evs1 ++ Event.fail i :: evs2)) t.tl =
        World.init.run (evs1 ++ Event.fail i :: evs2) ∧
      ∀ (dui : DUI) (R : Rectangle),
        ∀ u ∈ (tileMap.Draw (World.init.run (evs1 ++ Event.fail i :: evs2)) dui R).tasks,
          u.tl ≠ t.tl := by
  have hinv := World.run_Inv evs1
  have hs := World.fail_Stuck _ i t hinv h
  have hrun : World.init.run (evs1 ++ Event.fail i :: evs2) =
      ((World.init.run evs1).step (Event.fail i)).run evs2 := by
    rw [World.run_append]
    rfl
  have hlater := World.run_keeps (fun w => w.Stuck t.tl) (World.step_Stuck t.tl) _ evs2 hs
  rw [← hrun] at hlater
  refine ⟨rfl, hlater.1, hlater.2.1, hlater.2.2, Draw.body_eq_of_busy _ _ hlater.1, ?_⟩
  intro dui R
  exact (World.step_Stuck t.tl _ (Event.draw dui R) hlater).2.2

/-- A concrete run: after the view is centred at longitude 0, latitude 0 with zoom 1, a
Draw of a widget of one pixel starts one goroutine, for the tile 1, 1 of zoom 1. -/
theorem World.run_origin_draw :
    (World.init.run [Event.input main.tilemapOrigin, Event.draw ⟨id⟩ (rect (Pt 1 1))]).tasks.get? 0
      = some { tl := Draw.link main.tilemap.TileURL ⟨1, 1, 1⟩, tbuf := none } := by
  have h1 : World.init.step (Event.input main.tilemapOrigin) =
      { ui := main.tilemapOrigin, tasks := [] } := rfl
  have hz : main.tilemapOrigin.zoom = 1 := by
    simp [main.tilemapOrigin, main.tilemap, tileMap.zoom]
  have hdpi : (DUI.mk id).hiDPI = false := by decide
  have hcfg : main.tilemapOrigin.tileConfig false = (main.tilemap.TileURL, Pt 256 256) := rfl
  have htiles : Draw.tiles (Draw.grid (rect (Pt 1 1)) (Pt 256 256) 1 ⟨1, 1, 1⟩ (Pt 0 0)) 1 =
      [⟨1, 1, 1⟩] := by decide
  show ((World.init.step (Event.input main.tilemapOrigin)).step
    (Event.draw ⟨id⟩ (rect (Pt 1 1)))).tasks.get? 0 = _
  rw [h1]
  simp only [World.step, tileMap.Draw, hdpi, hcfg, Draw_center_origin, Draw.pass, hz, htiles,
    List.foldl]
  rfl

/-- Witness for C10: the goroutine for the tile 1, 1 of zoom 1 fails, and a later Draw of
the same view starts no goroutine for it. -/
theorem failed_tile_never_retried_witness :
    (World.init.run [Event.input main.tilemapOrigin,
        Event.draw ⟨id⟩ (rect (Pt 1 1))]).tasks.get? 0 =
        some { tl := Draw.link main.tilemap.TileURL ⟨1, 1, 1⟩, tbuf := none } ∧
      (World.init.run ([Event.input main.tilemapOrigin, Event.draw ⟨id⟩ (rect (Pt 1 1))] ++
        Event.fail 0 :: [Event.draw ⟨id⟩ (rect (Pt 1 1))])).ui.tileBusy
          (Draw.link main.tilemap.TileURL ⟨1, 1, 1⟩) = true ∧
      (World.init.run ([Event.input main.tilemapOrigin, Event.draw ⟨id⟩ (rect (Pt 1 1))] ++
        Event.fail 0 :: [Event.draw ⟨id⟩ (rect (Pt 1 1))])).ui.tileImages
          (Draw.link main.tilemap.TileURL ⟨1, 1, 1⟩) = none ∧
      ∀ u ∈ (World.init.run ([Event.input main.tilemapOrigin,
          Event.draw ⟨id⟩ (rect (Pt 1 1))] ++
        Event.fail 0 :: [Event.draw ⟨id⟩ (rect (Pt 1 1))])).tasks,
        u.tl ≠ Draw.link main.tilemap.TileURL ⟨1, 1, 1⟩ :=
  have h := failed_tile_never_retried
    [Event.input main.tilemapOrigin, Event.draw ⟨id⟩ (rect (Pt 1 1))]
    [Event.draw ⟨id⟩ (rect (Pt 1 1))] 0
    { tl := Draw.link main.tilemap.TileURL ⟨1, 1, 1⟩, tbuf := none } World.run_origin_draw
  ⟨World.run_origin_draw, h.2.1, h.2.2.1, h.2.2.2.1⟩

end Duitmap
